import Mathlib

/-!
Shallow embedding of `src/address_book.py` (module `address_book`): the
contact-ledger data model (`Field`/`Phone`/`Birthday`/`Record`/`AddressBook`)
and the upcoming-birthdays computation.

Conventions of the embedding:
* Python `datetime.date` values are modelled by `Date` (proleptic Gregorian
  calendar, as Python's `datetime` uses; the ordinal and weekday formulas below
  are those of CPython's `datetime` module: ordinal 1 is 0001-01-01, and
  `weekday()` is Monday = 0 … Sunday = 6).
* `Phone` objects are value wrappers around their string (`Field.value`), so a
  record's phone list is modelled as the list of those strings.
* Mutating methods become functions returning the updated record; methods that
  also return a message return a pair.
* A Python `dict` is modelled as an association list with dict-update
  semantics: updating an existing key replaces the value in place, a new key is
  appended (insertion order, as Python dicts preserve it).
* Raising `ValueError` is modelled with `Option`/`Except`.
* `get_upcoming_birthdays` reads `datetime.today()`; the embedding takes that
  reference date as an explicit parameter `today`.
* Python's `str.isnumeric` / `\d` matching is modelled as the decimal-digit
  test `Char.isDigit` (the fragment shared with the spec's "decimal digits").
-/

namespace AddressBookSpec

/-- A calendar date: year, month (1–12), day (1–31).  Mirrors the payload of a
Python `datetime.date`. -/
structure Date where
  year : Nat
  month : Nat
  day : Nat
deriving DecidableEq

/-- Gregorian leap-year rule, as in CPython `datetime._is_leap`. -/
def isLeap (y : Nat) : Prop := y % 4 = 0 ∧ (y % 100 ≠ 0 ∨ y % 400 = 0)

instance (y : Nat) : Decidable (isLeap y) := by
  unfold isLeap
  infer_instance

/-- Days in a month, as in CPython `datetime._days_in_month` (0 for an
out-of-range month, which the validity predicate below rules out). -/
def monthDays (y m : Nat) : Nat :=
  match m with
  | 1 => 31
  | 2 => if isLeap y then 29 else 28
  | 3 => 31
  | 4 => 30
  | 5 => 31
  | 6 => 30
  | 7 => 31
  | 8 => 31
  | 9 => 30
  | 10 => 31
  | 11 => 30
  | 12 => 31
  | _ => 0

/-- The dates representable as Python `datetime.date` values (Python also caps
the year at 9999, a representation limit irrelevant to the claims here). -/
def validDate (d : Date) : Prop :=
  1 ≤ d.year ∧ 1 ≤ d.month ∧ d.month ≤ 12 ∧ 1 ≤ d.day ∧ d.day ≤ monthDays d.year d.month

instance (d : Date) : Decidable (validDate d) := by
  unfold validDate
  infer_instance

/-- Days in year `y` strictly before month `m` (CPython
`datetime._days_before_month`). -/
def daysBeforeMonth (y m : Nat) : Nat :=
  let l : Nat := if isLeap y then 1 else 0
  match m with
  | 1 => 0
  | 2 => 31
  | 3 => 59 + l
  | 4 => 90 + l
  | 5 => 120 + l
  | 6 => 151 + l
  | 7 => 181 + l
  | 8 => 212 + l
  | 9 => 243 + l
  | 10 => 273 + l
  | 11 => 304 + l
  | 12 => 334 + l
  | _ => 0

/-- One-based day number within the year. -/
def dayOfYear (d : Date) : Nat := daysBeforeMonth d.year d.month + d.day

/-- Proleptic-Gregorian ordinal of a date, as CPython `datetime._ymd2ord`:
0001-01-01 has ordinal 1. -/
def toOrdinal (d : Date) : Nat :=
  365 * (d.year - 1) + (d.year - 1) / 4 + (d.year - 1) / 400 - (d.year - 1) / 100
    + dayOfYear d

/-- `date.weekday()`: Monday = 0 … Sunday = 6 (CPython computes
`(toordinal + 6) % 7`). -/
def weekday (d : Date) : Nat := (toOrdinal d + 6) % 7

/-- The day after `d` (rolling over month and year ends).  `d + timedelta(1)`
for valid dates. -/
def succDay (d : Date) : Date :=
  if d.day < monthDays d.year d.month then ⟨d.year, d.month, d.day + 1⟩
  else if d.month < 12 then ⟨d.year, d.month + 1, 1⟩
  else ⟨d.year + 1, 1, 1⟩

/-- `d + timedelta(days = n)` for valid dates. -/
def addDays (d : Date) (n : Nat) : Date := succDay^[n] d

/-- Python `date` comparison: lexicographic on (year, month, day). -/
def dateLt (a b : Date) : Prop :=
  a.year < b.year ∨
    (a.year = b.year ∧ (a.month < b.month ∨ (a.month = b.month ∧ a.day < b.day)))

instance (a b : Date) : Decidable (dateLt a b) := by
  unfold dateLt
  infer_instance

/-- `d.replace(year = y)`: keeps month/day, validates against the new year;
`none` models the `ValueError` raised when the result is not a real date
(e.g. Feb 29 in a non-leap year). -/
def replaceYear (d : Date) (y : Nat) : Option Date :=
  if validDate ⟨y, d.month, d.day⟩ then some ⟨y, d.month, d.day⟩ else none

/-- Zero-pad to width 2 (strftime `%d` / `%m`). -/
def pad2 (n : Nat) : String := if n < 10 then "0" ++ toString n else toString n

/-- Zero-pad to width 4 (strftime `%Y` on the years occurring here). -/
def pad4 (n : Nat) : String :=
  if n < 10 then "000" ++ toString n
  else if n < 100 then "00" ++ toString n
  else if n < 1000 then "0" ++ toString n
  else toString n

/-- `date.strftime(DATE_FORMAT)` with `DATE_FORMAT = "%d.%m.%Y"`. -/
def strftimeDate (d : Date) : String :=
  pad2 d.day ++ "." ++ pad2 d.month ++ "." ++ pad4 d.year

/-- `str(datetime(y, m, d))` — the display form a stored `Birthday` value gets
through the inherited `Field.__str__` (`strptime` leaves the time at
00:00:00). -/
def birthdayDisplay (d : Date) : String :=
  pad4 d.year ++ "-" ++ pad2 d.month ++ "-" ++ pad2 d.day ++ " 00:00:00"

/-- Numeric value of a list of decimal digit characters. -/
def digitsVal (l : List Char) : Nat := l.foldl (fun a c => 10 * a + (c.toNat - 48)) 0

/-- Split a character list at every `'.'` (the literal separators of the
`"%d.%m.%Y"` format). -/
def splitDots : List Char → List (List Char)
  | [] => [[]]
  | c :: rest =>
    if c = '.' then [] :: splitDots rest
    else
      match splitDots rest with
      | [] => [[c]]
      | h :: t => (c :: h) :: t

/-- `datetime.strptime(s, "%d.%m.%Y")`, as `Birthday.__init__` calls it:
day and month match 1–2 digit fields in range (CPython `_strptime` regexes
`3[01]|[12]\d|0[1-9]|[1-9]` and `1[0-2]|0[1-9]|[1-9]`), the year exactly four
digits, separated by literal dots consuming the whole string; the resulting
numbers must form a real calendar date (else `ValueError`, i.e. `none`). -/
def parseDate (s : String) : Option Date :=
  match splitDots s.toList with
  | [ds, ms, ys] =>
    if (1 ≤ ds.length ∧ ds.length ≤ 2 ∧ ds.all Char.isDigit = true)
        ∧ (1 ≤ ms.length ∧ ms.length ≤ 2 ∧ ms.all Char.isDigit = true)
        ∧ (ys.length = 4 ∧ ys.all Char.isDigit = true) then
      let dv := digitsVal ds
      let mv := digitsVal ms
      let yv := digitsVal ys
      if (1 ≤ dv ∧ dv ≤ 31) ∧ (1 ≤ mv ∧ mv ≤ 12) ∧ 1 ≤ yv ∧ dv ≤ monthDays yv mv
      then some ⟨yv, mv, dv⟩ else none
    else none
  | _ => none

/-- One contact: `Record` from `address_book.py`.  `phones` holds the `Phone`
wrappers' string values; `birthday` holds the parsed date of the `Birthday`
wrapper, `none` when unset. -/
structure Record where
  name : String
  phones : List String
  birthday : Option Date
deriving DecidableEq

namespace Record

/-- `Record.__init__(name, birthday)`: empty phone list. -/
def make (name : String) (birthday : Option Date) : Record :=
  ⟨name, [], birthday⟩

/-- `Record.is_phone_valid`: `len(phone) == 10 and phone.isnumeric()`. -/
def is_phone_valid (phone : String) : Bool :=
  phone.toList.length == 10 && phone.toList.all Char.isDigit

/-- `Record.add_phone`: appends the phone when valid; then reports success
whenever the phone list is (now) non-empty, else the failure message. -/
def add_phone (r : Record) (phone : String) : Record × String :=
  let r' := if is_phone_valid phone then { r with phones := r.phones ++ [phone] } else r
  if r'.phones ≠ [] then (r', "The phone is added successfully")
  else (r', "Phone " ++ phone ++ " was not added, it should be 10 digits long and numeric")

/-- Remove the first element equal to `x` (the `del … break` loop of
`remove_phone`). -/
def removeFirst : List String → String → List String
  | [], _ => []
  | p :: ps, x => if p = x then ps else p :: removeFirst ps x

/-- `Record.remove_phone`. -/
def remove_phone (r : Record) (phone : String) : Record :=
  { r with phones := removeFirst r.phones phone }

/-- Replace the first element equal to `old` by `new` (the assignment-then-
`break` loop of `edit_phone`). -/
def replaceFirst : List String → String → String → List String
  | [], _, _ => []
  | p :: ps, old, new => if p = old then new :: ps else p :: replaceFirst ps old new

/-- `Record.edit_phone`: only acts when the new value validates. -/
def edit_phone (r : Record) (old new : String) : Record :=
  if is_phone_valid new then { r with phones := replaceFirst r.phones old new } else r

/-- `Record.find_phone`: first stored phone equal to the query, else `None`. -/
def find_phone (r : Record) (phone : String) : Option String :=
  r.phones.find? (fun p => p == phone)

/-- `Record.add_birthday`: `Birthday(birthday)` parses with
`strptime(value, DATE_FORMAT)`; `ValueError` is caught and its fixed message
returned, leaving the record unchanged. -/
def add_birthday (r : Record) (birthday : String) : Record × String :=
  match parseDate birthday with
  | some d => ({ r with birthday := some d }, "Birthday is added successfully")
  | none => (r, "Invalid date format. Use DD.MM.YYYY")

end Record

/-- The `AddressBook` (`UserDict`): its `data` dict, modelled as an association
list from name to record with Python-dict update semantics. -/
structure AddressBook where
  data : List (String × Record)
deriving DecidableEq

/-- The keys of the underlying dict, in insertion order. -/
def keys (l : List (String × Record)) : List String := l.map Prod.fst

/-- `self.data.update({k: v})`: replace the value in place when the key is
present (keeping its position and original key object), else append. -/
def dictUpdate (l : List (String × Record)) (k : String) (v : Record) :
    List (String × Record) :=
  if l.any (fun p => p.1 == k) then
    l.map (fun p => if p.1 = k then (p.1, v) else p)
  else l ++ [(k, v)]

/-- Number of entries stored under key `k`. -/
def countKey (l : List (String × Record)) (k : String) : Nat :=
  (l.filter (fun p => p.1 = k)).length

namespace AddressBook

/-- `AddressBook.add_record`. -/
def add_record (b : AddressBook) (r : Record) : AddressBook :=
  ⟨dictUpdate b.data r.name r⟩

/-- `AddressBook.find`: `self.data.get(name)`. -/
def find (b : AddressBook) (name : String) : Option Record :=
  (b.data.find? (fun p => p.1 == name)).map Prod.snd

/-- `AddressBook.delete`: `pop` only when the name is present. -/
def delete (b : AddressBook) (name : String) : AddressBook :=
  if b.data.any (fun p => p.1 == name) then ⟨b.data.eraseP (fun p => p.1 == name)⟩
  else b

end AddressBook

instance {ε α : Type} [DecidableEq ε] [DecidableEq α] : DecidableEq (Except ε α) := fun a b =>
  match a, b with
  | .error e, .error f =>
    if h : e = f then isTrue (by rw [h]) else isFalse (by simp [h])
  | .error _, .ok _ => isFalse (by simp)
  | .ok _, .error _ => isFalse (by simp)
  | .ok x, .ok y =>
    if h : x = y then isTrue (by rw [h]) else isFalse (by simp [h])

/-- One output dict of `get_upcoming_birthdays`:
`{"name": …, "congratulation_date": …}`. -/
structure Entry where
  name : String
  congratulation_date : String
deriving DecidableEq

/-- Message of the `ValueError` CPython raises when a date's day does not fit
the month (the error `replace` propagates out of `get_upcoming_birthdays`). -/
def dateErrorMsg : String := "day is out of range for month"

/-- `AddressBook.adjust_for_weekend`: dates whose `weekday()` is in
`WEEKEND_DAYS = [5, 6]` move forward by `DAYS_IN_WEEK - weekday` days. -/
def adjust_for_weekend (d : Date) : Date :=
  if weekday d ∈ ([5, 6] : List Nat) then addDays d (7 - weekday d) else d

/-- The year-adjusted candidate date of `get_upcoming_birthdays`:
`birthday_this_year = b.replace(year=today.year)`, moved to `today.year + 1`
when it has already passed; `none` models the `ValueError` from `replace`. -/
def candidateOf (today b : Date) : Option Date :=
  match replaceYear b today.year with
  | none => none
  | some c0 => if dateLt c0 today then replaceYear c0 (today.year + 1) else some c0

/-- One iteration of the `get_upcoming_birthdays` loop on a single record:
`ok none` = skipped, `ok (some e)` = contributes `e`, `error` = the loop's
date construction raised.  (The `isinstance` fallback branch of the source is
dead here: a `Birthday` constructed by `add_birthday` always stores a
datetime.) -/
def processContact (today : Date) (r : Record) : Except String (Option Entry) :=
  match r.birthday with
  | none => .ok none
  | some b =>
    match candidateOf today b with
    | none => .error dateErrorMsg
    | some c =>
      let delta : Int := (toOrdinal c : Int) - (toOrdinal today : Int)
      if 0 ≤ delta ∧ delta ≤ 7 then
        .ok (some ⟨r.name, strftimeDate (adjust_for_weekend c)⟩)
      else .ok none

/-- The `for contact in self.data` loop: accumulates entries in iteration
order, propagating a raised `ValueError`. -/
def collectUpcoming (today : Date) : List Record → Except String (List Entry)
  | [] => .ok []
  | r :: rs =>
    match processContact today r with
    | .error e => .error e
    | .ok none => collectUpcoming today rs
    | .ok (some entry) =>
      match collectUpcoming today rs with
      | .error e => .error e
      | .ok l => .ok (entry :: l)

/-- `AddressBook.get_upcoming_birthdays`, with `datetime.today().date()` made
an explicit parameter. -/
def get_upcoming_birthdays (today : Date) (b : AddressBook) :
    Except String (List Entry) :=
  collectUpcoming today (b.data.map Prod.snd)

/-- The phone-list invariant of the spec: every stored element passed
`is_phone_valid`. -/
def allValidPhones (l : List String) : Prop :=
  ∀ p ∈ l, Record.is_phone_valid p = true

instance (l : List String) : Decidable (allValidPhones l) := by
  unfold allValidPhones
  infer_instance

end AddressBookSpec
namespace AddressBookSpec

theorem daysBeforeMonth_succ (y m : Nat) (h1 : 1 ≤ m) (h2 : m ≤ 11) :
    daysBeforeMonth y (m + 1) = daysBeforeMonth y m + monthDays y m := by
  interval_cases m <;> by_cases hl : isLeap y <;>
    simp [daysBeforeMonth, monthDays, hl]

theorem monthDays_pos (y m : Nat) (h1 : 1 ≤ m) (h2 : m ≤ 12) :
    1 ≤ monthDays y m := by
  interval_cases m <;> by_cases hl : isLeap y <;> simp [monthDays, hl]

set_option maxHeartbeats 1600000 in
theorem toOrdinal_succDay (d : Date) (h : validDate d) :
    toOrdinal (succDay d) = toOrdinal d + 1 := by
  obtain ⟨y, m, dd⟩ := d
  obtain ⟨hy, hm1, hm2, hd1, hd2⟩ := h
  replace hy : 1 ≤ y := hy
  replace hm1 : 1 ≤ m := hm1
  replace hm2 : m ≤ 12 := hm2
  replace hd1 : 1 ≤ dd := hd1
  replace hd2 : dd ≤ monthDays y m := hd2
  unfold succDay
  split
  · simp only [toOrdinal, dayOfYear]
    omega
  · split
    · rename_i hlt hm12
      replace hlt : ¬ dd < monthDays y m := hlt
      replace hm12 : m < 12 := hm12
      simp only [toOrdinal, dayOfYear]
      rw [daysBeforeMonth_succ y m hm1 (by omega)]
      omega
    · rename_i hlt hm12
      replace hlt : ¬ dd < monthDays y m := hlt
      replace hm12 : ¬ m < 12 := hm12
      have hm : m = 12 := by omega
      have h31 : monthDays y 12 = 31 := rfl
      have hday : dd = 31 := by rw [hm] at hlt hd2; omega
      subst hm
      subst hday
      have hdb12 : daysBeforeMonth y 12 = 334 + (if isLeap y then 1 else 0) := rfl
      have hdb1 : daysBeforeMonth (y + 1) 1 = 0 := rfl
      simp only [toOrdinal, dayOfYear, hdb12, hdb1]
      by_cases hl : isLeap y
      · rw [if_pos hl]
        unfold isLeap at hl
        omega
      · rw [if_neg hl]
        unfold isLeap at hl
        omega

theorem validDate_succDay (d : Date) (h : validDate d) : validDate (succDay d) := by
  obtain ⟨y, m, dd⟩ := d
  obtain ⟨hy, hm1, hm2, hd1, hd2⟩ := h
  replace hy : 1 ≤ y := hy
  replace hm1 : 1 ≤ m := hm1
  replace hm2 : m ≤ 12 := hm2
  replace hd1 : 1 ≤ dd := hd1
  replace hd2 : dd ≤ monthDays y m := hd2
  unfold succDay
  split
  · show 1 ≤ y ∧ 1 ≤ m ∧ m ≤ 12 ∧ 1 ≤ dd + 1 ∧ dd + 1 ≤ monthDays y m
    rename_i hlt
    replace hlt : dd < monthDays y m := hlt
    exact ⟨hy, hm1, hm2, by omega, by omega⟩
  · split
    · rename_i hlt hm12
      replace hm12 : m < 12 := hm12
      show 1 ≤ y ∧ 1 ≤ m + 1 ∧ m + 1 ≤ 12 ∧ 1 ≤ 1 ∧ 1 ≤ monthDays y (m + 1)
      exact ⟨hy, by omega, by omega, by omega,
        monthDays_pos y (m + 1) (by omega) (by omega)⟩
    · show 1 ≤ y + 1 ∧ 1 ≤ 1 ∧ 1 ≤ 12 ∧ 1 ≤ 1 ∧ 1 ≤ monthDays (y + 1) 1
      exact ⟨by omega, by omega, by omega, by omega, by simp [monthDays]⟩

theorem addDays_spec (d : Date) (h : validDate d) (n : Nat) :
    toOrdinal (addDays d n) = toOrdinal d + n ∧ validDate (addDays d n) := by
  induction n with
  | zero => exact ⟨rfl, h⟩
  | succ k ih =>
    have hstep : addDays d (k + 1) = succDay (addDays d k) := by
      unfold addDays
      exact Function.iterate_succ_apply' succDay k d
    rw [hstep, toOrdinal_succDay _ ih.2, ih.1]
    exact ⟨by omega, validDate_succDay _ ih.2⟩

theorem weekday_addDays (d : Date) (h : validDate d) (n : Nat) :
    weekday (addDays d n) = (weekday d + n) % 7 := by
  unfold weekday
  rw [(addDays_spec d h n).1]
  omega

end AddressBookSpec
namespace AddressBookSpec

/-- C3: `adjust_for_weekend` moves a Saturday (weekday 5) candidate by +2
days and a Sunday (weekday 6) candidate by +1 day, leaves weekdays unchanged,
and never returns a Saturday or Sunday. -/
theorem adjust_for_weekend_spec (d : Date) (h : validDate d) :
    (weekday d = 5 → adjust_for_weekend d = addDays d 2) ∧
    (weekday d = 6 → adjust_for_weekend d = addDays d 1) ∧
    (weekday d ≠ 5 → weekday d ≠ 6 → adjust_for_weekend d = d) ∧
    weekday (adjust_for_weekend d) ≠ 5 ∧ weekday (adjust_for_weekend d) ≠ 6 := by
  by_cases h5 : weekday d = 5
  · have he : adjust_for_weekend d = addDays d 2 := by
      unfold adjust_for_weekend
      rw [if_pos (by simp [h5]), h5]
    have hwk : weekday (adjust_for_weekend d) = 0 := by
      rw [he, weekday_addDays d h 2, h5]
    exact ⟨fun _ => he, fun h6 => (by omega : False).elim, fun hc _ => absurd h5 hc,
      by omega, by omega⟩
  · by_cases h6 : weekday d = 6
    · have he : adjust_for_weekend d = addDays d 1 := by
        unfold adjust_for_weekend
        rw [if_pos (by simp [h6]), h6]
      have hwk : weekday (adjust_for_weekend d) = 0 := by
        rw [he, weekday_addDays d h 1, h6]
      exact ⟨fun h5c => absurd h5c h5, fun _ => he, fun _ hc => absurd h6 hc,
        by omega, by omega⟩
    · have he : adjust_for_weekend d = d := by
        unfold adjust_for_weekend
        rw [if_neg (by simp [h5, h6])]
      refine ⟨fun hc => absurd hc h5, fun hc => absurd hc h6, fun _ _ => he, ?_, ?_⟩
      · rw [he]
        exact h5
      · rw [he]
        exact h6

/-- Witness for C3 at the spec scenario date: 2024-06-15 is a Saturday and is
shifted to Monday 2024-06-17. -/
theorem adjust_for_weekend_spec_witness :
    weekday ⟨2024, 6, 15⟩ = 5 ∧ adjust_for_weekend ⟨2024, 6, 15⟩ = addDays ⟨2024, 6, 15⟩ 2
      ∧ adjust_for_weekend ⟨2024, 6, 15⟩ = ⟨2024, 6, 17⟩ := by
  have h := (adjust_for_weekend_spec ⟨2024, 6, 15⟩ (by decide)).1 (by decide)
  exact ⟨by decide, h, by decide⟩

end AddressBookSpec
namespace AddressBookSpec

/-- C1 (code bug): on a record that already holds a phone, `add_phone` with
the invalid value "123" leaves `phones` unchanged yet reports the success
message — the report depends on previously stored phones, not on this call's
value. -/
theorem add_phone_success_message_bug :
    Record.is_phone_valid "123" = false ∧
    (Record.add_phone ⟨"John", ["1234567890"], none⟩ "123").1.phones = ["1234567890"] ∧
    (Record.add_phone ⟨"John", ["1234567890"], none⟩ "123").2
      = "The phone is added successfully" := by
  refine ⟨rfl, rfl, rfl⟩

/-- C8 fails as stated: the display form a stored `Birthday` gets through the
inherited `Field.__str__` is the datetime default, not `"15.03.1990"`. -/
theorem birthday_roundtrip_counterexample :
    parseDate "15.03.1990" = some ⟨1990, 3, 15⟩ ∧
    birthdayDisplay ⟨1990, 3, 15⟩ ≠ "15.03.1990" := by
  refine ⟨by decide, by decide⟩

/-- C8 amended: constructing a Birthday from "15.03.1990" succeeds and stores
1990-03-15; its own display form is "1990-03-15 00:00:00", while the ledger's
`DD.MM.YYYY` formatter maps the stored date back to "15.03.1990". -/
theorem birthday_roundtrip_amended :
    parseDate "15.03.1990" = some ⟨1990, 3, 15⟩ ∧
    birthdayDisplay ⟨1990, 3, 15⟩ = "1990-03-15 00:00:00" ∧
    strftimeDate ⟨1990, 3, 15⟩ = "15.03.1990" := by
  refine ⟨by decide, by decide, by decide⟩

theorem replaceFirst_of_not_mem (l : List String) (old new : String) (h : old ∉ l) :
    Record.replaceFirst l old new = l := by
  induction l with
  | nil => rfl
  | cons p t ih =>
    simp only [List.mem_cons, not_or] at h
    unfold Record.replaceFirst
    rw [if_neg (fun hpe => h.1 hpe.symm), ih h.2]

theorem replaceFirst_append (l1 l2 : List String) (old new : String) (h : old ∉ l1) :
    Record.replaceFirst (l1 ++ old :: l2) old new = l1 ++ new :: l2 := by
  induction l1 with
  | nil => simp [Record.replaceFirst]
  | cons p t ih =>
    simp only [List.mem_cons, not_or] at h
    simp only [List.cons_append]
    unfold Record.replaceFirst
    rw [if_neg (fun hpe => h.1 hpe.symm), ih h.2]

/-- C4: `edit_phone` is a no-op when the new value is invalid or the old value
is absent, and otherwise replaces exactly the first occurrence of the old
value, preserving everything else. -/
theorem edit_phone_spec (r : Record) (old new : String) :
    (Record.is_phone_valid new = false → Record.edit_phone r old new = r) ∧
    (Record.is_phone_valid new = true → old ∉ r.phones →
      Record.edit_phone r old new = r) ∧
    (∀ l1 l2, Record.is_phone_valid new = true → r.phones = l1 ++ old :: l2 →
      old ∉ l1 →
      (Record.edit_phone r old new).phones = l1 ++ new :: l2 ∧
      (Record.edit_phone r old new).name = r.name ∧
      (Record.edit_phone r old new).birthday = r.birthday) := by
  refine ⟨?_, ?_, ?_⟩
  · intro hv
    unfold Record.edit_phone
    rw [if_neg (by simp [hv])]
  · intro hv hm
    unfold Record.edit_phone
    rw [if_pos hv, replaceFirst_of_not_mem _ _ _ hm]
  · intro l1 l2 hv hp hm
    unfold Record.edit_phone
    rw [if_pos hv]
    exact ⟨by simp [hp, replaceFirst_append l1 l2 old new hm], rfl, rfl⟩

/-- Witness for C4: replacing the second stored phone. -/
theorem edit_phone_spec_witness :
    (Record.edit_phone ⟨"A", ["1111111111", "2222222222"], none⟩
        "2222222222" "3333333333").phones = ["1111111111", "3333333333"] :=
  ((edit_phone_spec ⟨"A", ["1111111111", "2222222222"], none⟩
      "2222222222" "3333333333").2.2 ["1111111111"] [] (by decide) (by decide)
        (by decide)).1

/-- C5: `add_birthday` stores the parsed date and reports success exactly when
the string parses as DD.MM.YYYY; otherwise it reports the fixed format-error
message and mutates nothing. -/
theorem add_birthday_spec (r : Record) (s : String) :
    (∀ d, parseDate s = some d →
      Record.add_birthday r s =
        ({ r with birthday := some d }, "Birthday is added successfully")) ∧
    (parseDate s = none →
      Record.add_birthday r s = (r, "Invalid date format. Use DD.MM.YYYY")) := by
  constructor
  · intro d hd
    unfold Record.add_birthday
    rw [hd]
  · intro hn
    unfold Record.add_birthday
    rw [hn]

/-- Witness for C5: a parse success overwriting no prior birthday, and a parse
failure leaving one in place. -/
theorem add_birthday_spec_witness :
    Record.add_birthday ⟨"B", [], none⟩ "15.03.1990"
      = (⟨"B", [], some ⟨1990, 3, 15⟩⟩, "Birthday is added successfully") ∧
    Record.add_birthday ⟨"B", [], some ⟨1990, 3, 15⟩⟩ "23-01-1985"
      = (⟨"B", [], some ⟨1990, 3, 15⟩⟩, "Invalid date format. Use DD.MM.YYYY") :=
  ⟨(add_birthday_spec ⟨"B", [], none⟩ "15.03.1990").1 ⟨1990, 3, 15⟩ (by decide),
   (add_birthday_spec ⟨"B", [], some ⟨1990, 3, 15⟩⟩ "23-01-1985").2 (by decide)⟩

theorem add_phone_fst (r : Record) (p : String) :
    (Record.add_phone r p).1 =
      if Record.is_phone_valid p then { r with phones := r.phones ++ [p] } else r := by
  unfold Record.add_phone
  split <;> (dsimp only; split <;> rfl)

theorem find_beq_append_self (l : List String) (p : String) :
    (l ++ [p]).find? (fun q => q == p) = some p := by
  induction l with
  | nil => simp [List.find?]
  | cons q t ih =>
    by_cases hq : q = p
    · subst hq
      simp [List.find?]
    · have hb : (q == p) = false := by simp [hq]
      simp only [List.cons_append, List.find?, hb]
      exact ih

/-- C9: adding a valid 10-digit phone makes `find_phone` return it. -/
theorem add_phone_find_phone (r : Record) (p : String)
    (h : Record.is_phone_valid p = true) :
    Record.find_phone (Record.add_phone r p).1 p = some p := by
  rw [Record.find_phone, add_phone_fst, if_pos h]
  exact find_beq_append_self r.phones p

/-- Witness for C9. -/
theorem add_phone_find_phone_witness :
    Record.find_phone (Record.add_phone ⟨"A", [], none⟩ "0123456789").1 "0123456789"
      = some "0123456789" :=
  add_phone_find_phone ⟨"A", [], none⟩ "0123456789" (by decide)

end AddressBookSpec
namespace AddressBookSpec

theorem mem_removeFirst (l : List String) (x p : String)
    (h : p ∈ Record.removeFirst l x) : p ∈ l := by
  induction l with
  | nil => simp [Record.removeFirst] at h
  | cons q t ih =>
    unfold Record.removeFirst at h
    by_cases hq : q = x
    · rw [if_pos hq] at h
      exact List.mem_cons_of_mem _ h
    · rw [if_neg hq] at h
      rcases List.mem_cons.mp h with h1 | h1
      · simp [h1]
      · exact List.mem_cons_of_mem _ (ih h1)

theorem mem_replaceFirst (l : List String) (old new p : String)
    (h : p ∈ Record.replaceFirst l old new) : p ∈ l ∨ p = new := by
  induction l with
  | nil => simp [Record.replaceFirst] at h
  | cons q t ih =>
    unfold Record.replaceFirst at h
    by_cases hq : q = old
    · rw [if_pos hq] at h
      rcases List.mem_cons.mp h with h1 | h1
      · exact Or.inr h1
      · exact Or.inl (List.mem_cons_of_mem _ h1)
    · rw [if_neg hq] at h
      rcases List.mem_cons.mp h with h1 | h1
      · exact Or.inl (by simp [h1])
      · rcases ih h1 with h2 | h2
        · exact Or.inl (List.mem_cons_of_mem _ h2)
        · exact Or.inr h2

/-- C6: a fresh record has no phones, and every phone-mutating operation
preserves "all stored phones passed validation". -/
theorem phones_invariant :
    (∀ name bd, (Record.make name bd).phones = []) ∧
    (∀ (r : Record) (p : String), allValidPhones r.phones →
      allValidPhones (Record.add_phone r p).1.phones) ∧
    (∀ (r : Record) (p : String), allValidPhones r.phones →
      allValidPhones (Record.remove_phone r p).phones) ∧
    (∀ (r : Record) (old new : String), allValidPhones r.phones →
      allValidPhones (Record.edit_phone r old new).phones) := by
  refine ⟨fun _ _ => rfl, ?_, ?_, ?_⟩
  · intro r p hall
    rw [add_phone_fst]
    by_cases hv : Record.is_phone_valid p
    · rw [if_pos hv]
      intro q hq
      rcases List.mem_append.mp hq with h | h
      · exact hall q h
      · have : q = p := by simpa using h
        subst this
        exact hv
    · rw [if_neg hv]
      exact hall
  · intro r p hall q hq
    exact hall q (mem_removeFirst r.phones p q hq)
  · intro r old new hall q hq
    unfold Record.edit_phone at hq
    by_cases hv : Record.is_phone_valid new
    · rw [if_pos hv] at hq
      rcases mem_replaceFirst r.phones old new q hq with h | h
      · exact hall q h
      · subst h
        exact hv
    · rw [if_neg hv] at hq
      exact hall q hq

/-- Witness for C6: the add-phone preservation step at a concrete record. -/
theorem phones_invariant_witness :
    allValidPhones (Record.add_phone ⟨"A", ["0123456789"], none⟩ "9876543210").1.phones :=
  phones_invariant.2.1 ⟨"A", ["0123456789"], none⟩ "9876543210" (by decide)

/-- C2: a record with a birthday whose year-adjusted candidate date exists is
included in the upcoming list exactly when the whole-day difference to `today`
lies in the inclusive window 0..7. -/
theorem upcoming_window_iff (today : Date) (r : Record) (b c : Date)
    (hb : r.birthday = some b) (hc : candidateOf today b = some c) :
    (∃ e, processContact today r = .ok (some e)) ↔
      (0 ≤ (toOrdinal c : Int) - (toOrdinal today : Int)
        ∧ (toOrdinal c : Int) - (toOrdinal today : Int) ≤ 7) := by
  unfold processContact
  rw [hb]
  dsimp only
  rw [hc]
  dsimp only
  split
  · rename_i hcond
    exact ⟨fun _ => hcond, fun _ => ⟨⟨r.name, strftimeDate (adjust_for_weekend c)⟩, rfl⟩⟩
  · rename_i hcond
    constructor
    · intro ⟨e, he⟩
      exact absurd he (by simp)
    · intro hw
      exact absurd hw hcond

end AddressBookSpec
namespace AddressBookSpec

/-- Witness for C2 at `today = 2024-06-10`: a birthday falling on 2024-06-17
(delta 7) is included, one falling on 2024-06-18 (delta 8) is not. -/
theorem upcoming_window_iff_witness :
    (∃ e, processContact ⟨2024, 6, 10⟩ ⟨"Alice", [], some ⟨1980, 6, 17⟩⟩
      = .ok (some e)) ∧
    ¬ (∃ e, processContact ⟨2024, 6, 10⟩ ⟨"Charlie", [], some ⟨1980, 6, 18⟩⟩
      = .ok (some e)) := by
  constructor
  · exact (upcoming_window_iff ⟨2024, 6, 10⟩ ⟨"Alice", [], some ⟨1980, 6, 17⟩⟩
      ⟨1980, 6, 17⟩ ⟨2024, 6, 17⟩ rfl (by decide)).mpr (by decide)
  · intro hex
    have h := (upcoming_window_iff ⟨2024, 6, 10⟩ ⟨"Charlie", [], some ⟨1980, 6, 18⟩⟩
      ⟨1980, 6, 18⟩ ⟨2024, 6, 18⟩ rfl (by decide)).mp hex
    exact absurd h (by decide)

theorem processContact_error_msg (today : Date) (r : Record) (e : String)
    (h : processContact today r = .error e) : e = dateErrorMsg := by
  unfold processContact at h
  cases hb : r.birthday with
  | none =>
    rw [hb] at h
    simp at h
  | some b =>
    rw [hb] at h
    dsimp only at h
    cases hc : candidateOf today b with
    | none =>
      rw [hc] at h
      dsimp only at h
      exact (Except.error.inj h).symm
    | some c =>
      rw [hc] at h
      dsimp only at h
      split at h <;> simp at h

/-- A record whose stored birthday is Feb 29 makes its loop iteration raise in
a non-leap reference year: `replace(year=today.year)` cannot build Feb 29. -/
theorem processContact_feb29 (today : Date) (r : Record) (yb : Nat)
    (hbd : r.birthday = some ⟨yb, 2, 29⟩) (hleap : ¬ isLeap today.year) :
    processContact today r = .error dateErrorMsg := by
  have hmd : monthDays today.year 2 = 28 := by
    have h : monthDays today.year 2 = if isLeap today.year then 29 else 28 := rfl
    rw [h, if_neg hleap]
  have hnv : ¬ validDate ⟨today.year, 2, 29⟩ := by
    intro hv
    obtain ⟨_, _, _, _, h5⟩ := hv
    replace h5 : 29 ≤ monthDays today.year 2 := h5
    omega
  have hc : candidateOf today ⟨yb, 2, 29⟩ = none := by
    unfold candidateOf replaceYear
    rw [if_neg hnv]
  unfold processContact
  rw [hbd]
  dsimp only
  rw [hc]

theorem collectUpcoming_error_of_mem (today : Date) (l : List Record) (r : Record)
    (hmem : r ∈ l) (herr : processContact today r = .error dateErrorMsg) :
    collectUpcoming today l = .error dateErrorMsg := by
  induction l with
  | nil => simp at hmem
  | cons q t ih =>
    rcases List.mem_cons.mp hmem with h | h
    · subst h
      unfold collectUpcoming
      rw [herr]
    · unfold collectUpcoming
      cases hq : processContact today q with
      | error e =>
        rw [processContact_error_msg today q e hq]
      | ok o =>
        cases o with
        | none => exact ih h
        | some entry =>
          dsimp only
          rw [ih h]

/-- C10: a Feb-29 birthday in the ledger makes `get_upcoming_birthdays` raise
the date-construction error when the reference year is not a leap year,
instead of returning a list. -/
theorem feb29_nonleap_raises (today : Date) (b : AddressBook) (r : Record) (yb : Nat)
    (hmem : r ∈ b.data.map Prod.snd) (hbd : r.birthday = some ⟨yb, 2, 29⟩)
    (hleap : ¬ isLeap today.year) :
    get_upcoming_birthdays today b = .error dateErrorMsg :=
  collectUpcoming_error_of_mem today _ r hmem (processContact_feb29 today r yb hbd hleap)

/-- Witness for C10: one Feb-29 contact, reference date 2025-03-01. -/
theorem feb29_nonleap_raises_witness :
    get_upcoming_birthdays ⟨2025, 3, 1⟩ ⟨[("Leap", ⟨"Leap", [], some ⟨2000, 2, 29⟩⟩)]⟩
      = .error dateErrorMsg :=
  feb29_nonleap_raises ⟨2025, 3, 1⟩ ⟨[("Leap", ⟨"Leap", [], some ⟨2000, 2, 29⟩⟩)]⟩
    ⟨"Leap", [], some ⟨2000, 2, 29⟩⟩ 2000 (by decide) rfl (by decide)

end AddressBookSpec
namespace AddressBookSpec

theorem find_dictUpdate (l : List (String × Record)) (k : String) (v : Record) :
    ((dictUpdate l k v).find? (fun p => p.1 == k)).map Prod.snd = some v := by
  induction l with
  | nil => simp [dictUpdate, List.find?]
  | cons q t ih =>
    unfold dictUpdate
    by_cases hq : q.1 = k
    · rw [if_pos (by simp [List.any_cons, hq])]
      simp [List.find?, hq]
    · have hb : (q.1 == k) = false := by simp [hq]
      by_cases ht : t.any (fun p => p.1 == k) = true
      · rw [if_pos (by simp [List.any_cons, ht])]
        simp only [List.map_cons, if_neg hq, List.find?, hb]
        have h2 := ih
        unfold dictUpdate at h2
        rw [if_pos ht] at h2
        exact h2
      · rw [if_neg (by simp [List.any_cons, hb, ht])]
        simp only [List.cons_append, List.find?, hb]
        have h2 := ih
        unfold dictUpdate at h2
        rw [if_neg ht] at h2
        exact h2

theorem any_keys_iff (l : List (String × Record)) (k : String) :
    l.any (fun p => p.1 == k) = true ↔ k ∈ keys l := by
  rw [List.any_eq_true]
  constructor
  · rintro ⟨p, hp, he⟩
    exact List.mem_map.mpr ⟨p, hp, by simpa using he⟩
  · intro hk
    obtain ⟨p, hp, he⟩ := List.mem_map.mp hk
    exact ⟨p, hp, by simp [he]⟩

theorem countKey_eq_zero_of_not_mem (l : List (String × Record)) (k : String)
    (h : k ∉ keys l) : countKey l k = 0 := by
  induction l with
  | nil => rfl
  | cons q t ih =>
    simp only [keys, List.map_cons, List.mem_cons, not_or] at h
    unfold countKey at ih ⊢
    rw [List.filter_cons_of_neg (by simp; exact fun he => h.1 he.symm)]
    exact ih (by simpa [keys] using h.2)

theorem countKey_le_one (l : List (String × Record)) (k : String)
    (h : (keys l).Nodup) : countKey l k ≤ 1 := by
  induction l with
  | nil => simp [countKey]
  | cons q t ih =>
    simp only [keys, List.map_cons, List.nodup_cons] at h
    by_cases hq : q.1 = k
    · unfold countKey
      rw [List.filter_cons_of_pos (by simp [hq])]
      have h0 : countKey t k = 0 :=
        countKey_eq_zero_of_not_mem t k (by rw [← hq]; exact h.1)
      unfold countKey at h0
      simp [h0]
    · unfold countKey
      rw [List.filter_cons_of_neg (by simp [hq])]
      exact ih h.2

theorem countKey_pos_of_any (l : List (String × Record)) (k : String)
    (h : l.any (fun p => p.1 == k) = true) : 1 ≤ countKey l k := by
  induction l with
  | nil => simp at h
  | cons q t ih =>
    rw [List.any_cons] at h
    by_cases hq : q.1 = k
    · unfold countKey
      rw [List.filter_cons_of_pos (by simp [hq])]
      simp
    · have hb : (q.1 == k) = false := by simp [hq]
      rw [hb] at h
      simp only [Bool.false_or] at h
      unfold countKey
      rw [List.filter_cons_of_neg (by simp [hq])]
      exact ih h

theorem countKey_map_update (l : List (String × Record)) (k : String) (v : Record) :
    countKey (l.map fun p => if p.1 = k then (p.1, v) else p) k = countKey l k := by
  induction l with
  | nil => rfl
  | cons q t ih =>
    simp only [List.map_cons]
    by_cases hq : q.1 = k
    · unfold countKey
      rw [if_pos hq, List.filter_cons_of_pos (by simp [hq]),
        List.filter_cons_of_pos (by simp [hq])]
      unfold countKey at ih
      simp [ih]
    · unfold countKey
      rw [if_neg hq, List.filter_cons_of_neg (by simp [hq]),
        List.filter_cons_of_neg (by simp [hq])]
      exact ih

theorem countKey_dictUpdate (l : List (String × Record)) (k : String) (v : Record)
    (h : (keys l).Nodup) : countKey (dictUpdate l k v) k = 1 := by
  unfold dictUpdate
  by_cases hany : l.any (fun p => p.1 == k) = true
  · rw [if_pos hany, countKey_map_update]
    have h1 := countKey_le_one l k h
    have h2 := countKey_pos_of_any l k hany
    omega
  · rw [if_neg hany]
    have h0 : countKey l k = 0 :=
      countKey_eq_zero_of_not_mem l k (fun hk => hany ((any_keys_iff l k).mpr hk))
    unfold countKey at h0 ⊢
    rw [List.filter_append, List.length_append, h0]
    simp

theorem keys_nodup_dictUpdate (l : List (String × Record)) (k : String) (v : Record)
    (h : (keys l).Nodup) : (keys (dictUpdate l k v)).Nodup := by
  unfold dictUpdate
  by_cases hany : l.any (fun p => p.1 == k) = true
  · rw [if_pos hany]
    have he : keys (l.map fun p => if p.1 = k then (p.1, v) else p) = keys l := by
      unfold keys
      rw [List.map_map]
      congr 1
      funext p
      by_cases hp : p.1 = k <;> simp [hp]
    rw [he]
    exact h
  · rw [if_neg hany]
    unfold keys
    rw [List.map_append]
    refine List.Nodup.append h (List.nodup_singleton k) ?_
    intro x hx hx2
    simp only [List.map_cons, List.map_nil, List.mem_singleton] at hx2
    subst hx2
    exact hany ((any_keys_iff l x).mpr hx)

theorem find_absent (b : AddressBook) (nm : String) (h : nm ∉ keys b.data) :
    AddressBook.find b nm = none := by
  unfold AddressBook.find
  rw [List.find?_eq_none.mpr]
  · rfl
  · intro p hp
    simp only [beq_iff_eq]
    intro he
    exact h (List.mem_map.mpr ⟨p, hp, he⟩)

theorem delete_absent (b : AddressBook) (nm : String) (h : nm ∉ keys b.data) :
    AddressBook.delete b nm = b := by
  unfold AddressBook.delete
  rw [if_neg (fun hany => h ((any_keys_iff b.data nm).mp hany))]

/-- C7: adding two records with the same name leaves exactly one entry under
that name, holding the later record; absent names are found as `none` and
deleting them is a no-op. -/
theorem ledger_overwrite_spec (b : AddressBook) (r1 r2 : Record) (n m : String)
    (hnodup : (keys b.data).Nodup) (_h1 : r1.name = n) (h2 : r2.name = n)
    (habs : m ∉ keys b.data) :
    countKey ((b.add_record r1).add_record r2).data n = 1 ∧
    AddressBook.find ((b.add_record r1).add_record r2) n = some r2 ∧
    AddressBook.find b m = none ∧
    AddressBook.delete b m = b := by
  have hn1 : (keys (b.add_record r1).data).Nodup :=
    keys_nodup_dictUpdate b.data r1.name r1 hnodup
  refine ⟨?_, ?_, find_absent b m habs, delete_absent b m habs⟩
  · show countKey (dictUpdate (b.add_record r1).data r2.name r2) n = 1
    rw [h2]
    exact countKey_dictUpdate (b.add_record r1).data n r2 hn1
  · show ((dictUpdate (b.add_record r1).data r2.name r2).find?
      (fun p => p.1 == n)).map Prod.snd = some r2
    rw [h2]
    exact find_dictUpdate (b.add_record r1).data n r2

/-- Witness for C7: overwriting "John" in a one-entry book; "Bob" is absent. -/
theorem ledger_overwrite_spec_witness :
    countKey ((AddressBook.add_record (AddressBook.add_record ⟨[("Ann", ⟨"Ann", [], none⟩)]⟩
        ⟨"John", ["1111111111"], none⟩) ⟨"John", ["2222222222"], none⟩).data) "John" = 1 ∧
    AddressBook.find (AddressBook.add_record (AddressBook.add_record ⟨[("Ann", ⟨"Ann", [], none⟩)]⟩
        ⟨"John", ["1111111111"], none⟩) ⟨"John", ["2222222222"], none⟩) "John"
      = some ⟨"John", ["2222222222"], none⟩ ∧
    AddressBook.find ⟨[("Ann", ⟨"Ann", [], none⟩)]⟩ "Bob" = none ∧
    AddressBook.delete ⟨[("Ann", ⟨"Ann", [], none⟩)]⟩ "Bob" = ⟨[("Ann", ⟨"Ann", [], none⟩)]⟩ :=
  ledger_overwrite_spec ⟨[("Ann", ⟨"Ann", [], none⟩)]⟩ ⟨"John", ["1111111111"], none⟩
    ⟨"John", ["2222222222"], none⟩ "John" "Bob" (by decide) rfl rfl (by decide)

end AddressBookSpec
